import Mathlib

/-!
Verification of the sigil/valt credential-manager core.

Shallow embedding of the Rust sources:
* `crates/sigil-core/src/error.rs`, `generator.rs`, `vault_data.rs`
* `crates/valt-core/src/secret.rs`, `manager.rs`
* `src/tui/app.rs`, `src/tui/events.rs`, `src/tui/mod.rs`

External effects are modelled by explicit parameters:
* wall-clock time (`chrono::Utc::now`, `std::time::Instant`) as a `Nat`
  passed in by the caller;
* the encrypted document store (`serdevault::VaultFile`) as a record whose
  fields give the outcome of `exists`/`load`/`save`; the on-disk document is
  tracked in the `stored` field of the manager model;
* the random source: `rng.gen_range(0..n)` yields some value in `[0, n)`;
  it is modelled as `rand i % n` for an arbitrary stream `rand : Nat → Nat`
  (always in range for `n > 0`);
* the Skim fuzzy matcher as an arbitrary function
  `String → String → Option Int` (`fuzzy_match(text, query)`);
* the OS clipboard as a `String` threaded next to the application state,
  with two booleans for the outcome of `arboard::Clipboard::new()` and
  `set_text`.

Machine integers: `u8`/`usize` values stay far from overflow here, so they
are modelled as `Nat`; fuzzy scores (`i64`) as `Int`.
-/

namespace Sigil

/-- Opaque error of the external `serdevault` store (`SerdeVaultError`). -/
inductive SerdeVaultError
  | decryptionFailed
  | io (code : Nat)
deriving DecidableEq, Repr

/-- `sigil-core/src/error.rs`: `CoreError`. -/
inductive CoreError
  | Vault (e : SerdeVaultError)
  | NotFound (id : Nat)
  | EmptyCharset
  | InvalidLength
deriving DecidableEq, Repr

/-! ### Password generator (`sigil-core/src/generator.rs`) -/

def UPPERCASE : String := "ABCDEFGHIJKLMNOPQRSTUVWXYZ"

def LOWERCASE : String := "abcdefghijklmnopqrstuvwxyz"

def DIGITS : String := "0123456789"

def SYMBOLS : String := "!@#$%^&*()-_=+[]\x7b\x7d|;:,.<>?"

/-- Options for the password generator (`GeneratorConfig`). -/
structure GeneratorConfig where
  length : Nat
  uppercase : Bool
  lowercase : Bool
  digits : Bool
  symbols : Bool
deriving DecidableEq, Repr

/-- `GeneratorConfig::default()`. -/
def GeneratorConfig.defaultConfig : GeneratorConfig :=
  { length := 20, uppercase := true, lowercase := true,
    digits := true, symbols := true }

/-- The charset built by `generate` from the enabled classes, in the fixed
source order uppercase, lowercase, digits, symbols. -/
def effectiveCharset (config : GeneratorConfig) : String :=
  (if config.uppercase then UPPERCASE else "")
    ++ (if config.lowercase then LOWERCASE else "")
    ++ (if config.digits then DIGITS else "")
    ++ (if config.symbols then SYMBOLS else "")

/-- `generate(config)`.  The i-th character is `chars[rng.gen_range(0..len)]`;
the random draw is modelled as `rand i % len` (in range since `len > 0`). -/
def generate (config : GeneratorConfig) (rand : Nat → Nat) :
    Except CoreError String :=
  if config.length = 0 then
    .error .InvalidLength
  else
    let charset := effectiveCharset config
    if charset = "" then
      .error .EmptyCharset
    else
      let chars : List Char := charset.data
      .ok (String.mk ((List.range config.length).map
        (fun i => chars.getD (rand i % chars.length) 'A')))

/-! ### Secret record (`valt-core/src/secret.rs`) -/

/-- One credential entry (`Secret`).  `Uuid` is modelled as `Nat`,
`DateTime<Utc>` as `Nat`. -/
structure Secret where
  id : Nat
  name : String
  username : Option String
  password : String
  url : Option String
  notes : Option String
  tags : List String
  created_at : Nat
  updated_at : Nat
deriving DecidableEq, Repr

/-- `Secret::new(name, password)`: the fresh UUID and the current time are
supplied by the environment. -/
def Secret.new (id now : Nat) (name password : String) : Secret :=
  { id := id, name := name, username := none, password := password,
    url := none, notes := none, tags := [],
    created_at := now, updated_at := now }

/-- `Secret::touch()`: set `updated_at` to now. -/
def Secret.touch (s : Secret) (now : Nat) : Secret :=
  { s with updated_at := now }

/-! ### Vault document (`sigil-core/src/vault_data.rs`) -/

/-- Root structure serialized inside the encrypted vault file (`VaultData`). -/
structure VaultData where
  version : Nat
  secrets : List Secret
deriving DecidableEq, Repr

def CURRENT_VERSION : Nat := 1

/-- `VaultData::default()`. -/
def VaultData.defaultData : VaultData :=
  { version := CURRENT_VERSION, secrets := [] }

/-! ### Encrypted document store model (`serdevault::VaultFile`) -/

instance {ε α : Type} [DecidableEq ε] [DecidableEq α] :
    DecidableEq (Except ε α) := fun x y =>
  match x, y with
  | .ok a, .ok b =>
    if h : a = b then isTrue (by rw [h])
    else isFalse (fun hc => h (by injection hc))
  | .error a, .error b =>
    if h : a = b then isTrue (by rw [h])
    else isFalse (fun hc => h (by injection hc))
  | .ok _, .error _ => isFalse (fun hc => by injection hc)
  | .error _, .ok _ => isFalse (fun hc => by injection hc)

/-- Model of the external `VaultFile` handle: the outcomes of its
`exists` / `load` / `save` operations. -/
structure VaultFile where
  fileExists : Bool
  loadResult : Except SerdeVaultError VaultData
  saveResult : Option SerdeVaultError
deriving DecidableEq, Repr

/-! ### Vault manager (`valt-core/src/manager.rs`) -/

/-- `VaultManager`: the store handle, the decrypted in-memory document, and
(model only) the current content of the backing file. -/
structure VaultManager where
  vault : VaultFile
  data : VaultData
  stored : Option VaultData
deriving DecidableEq, Repr

/-- `VaultManager::save`: persist the current in-memory state. -/
def VaultManager.save (m : VaultManager) : VaultManager × Except CoreError Unit :=
  match m.vault.saveResult with
  | none => ({ m with stored := some m.data }, .ok ())
  | some e => (m, .error (.Vault e))

/-- `VaultManager::open` (named `openVault` because `open` is reserved). -/
def VaultManager.openVault (vault : VaultFile) : Except CoreError VaultManager :=
  match vault.loadResult with
  | .error e => .error (.Vault e)
  | .ok data => .ok { vault := vault, data := data, stored := some data }

/-- `VaultManager::create`: start from the default document and persist it
immediately. -/
def VaultManager.create (vault : VaultFile) : Except CoreError VaultManager :=
  let data := VaultData.defaultData
  match vault.saveResult with
  | some e => .error (.Vault e)
  | none => .ok { vault := vault, data := data, stored := some data }

/-- `VaultManager::open_or_create`. -/
def VaultManager.open_or_create (vault : VaultFile) :
    Except CoreError VaultManager :=
  if vault.fileExists then VaultManager.openVault vault
  else VaultManager.create vault

/-- `VaultManager::list`. -/
def VaultManager.list (m : VaultManager) : List Secret :=
  m.data.secrets

/-- `VaultManager::get`: first match by id. -/
def VaultManager.get (m : VaultManager) (id : Nat) : Option Secret :=
  m.data.secrets.find? (fun s => s.id == id)

/-- `VaultManager::match_score`: best fuzzy score of a secret against a
query, over name / username / url and the individual tags. -/
def match_score (matcher : String → String → Option Int) (secret : Secret)
    (query : String) : Option Int :=
  let candidates : List (Option String) :=
    [some secret.name, secret.username, secret.url]
  let best_field := (candidates.reduceOption.filterMap
    (fun text => matcher text query)).max?
  let best_tag := (secret.tags.filterMap (fun tag => matcher tag query)).max?
  match best_field, best_tag with
  | none, none => none
  | a, b => some (max (a.getD 0) (b.getD 0))

/-- `VaultManager::search`: empty query returns everything in insertion
order; otherwise score, drop non-matches, and stably sort by score
descending (`sort_by(|a, b| b.0.cmp(&a.0))`). -/
def VaultManager.search (matcher : String → String → Option Int)
    (m : VaultManager) (query : String) : List Secret :=
  if query = "" then
    m.data.secrets
  else
    let scored : List (Int × Secret) :=
      m.data.secrets.filterMap
        (fun s => (match_score matcher s query).map (fun sc => (sc, s)))
    (List.insertionSort (fun a b => b.1 ≤ a.1) scored).map (fun p => p.2)

/-- `VaultManager::add`: append and persist. -/
def VaultManager.add (m : VaultManager) (secret : Secret) :
    VaultManager × Except CoreError Unit :=
  VaultManager.save
    { m with data := { m.data with secrets := m.data.secrets ++ [secret] } }

/-- Helper for `VaultManager::update`: replace the first entry whose id
matches, forcing `id`, `created_at` from the existing entry and
`updated_at := now` (via `touch`); `none` when no entry matches. -/
def updateSecrets (id : Nat) (updated : Secret) (now : Nat) :
    List Secret → Option (List Secret)
  | [] => none
  | s :: rest =>
    if s.id = id then
      some ((Secret.touch { updated with id := id, created_at := s.created_at }
        now) :: rest)
    else
      (updateSecrets id updated now rest).map (fun l => s :: l)

/-- `VaultManager::update`. -/
def VaultManager.update (m : VaultManager) (id : Nat) (updated : Secret)
    (now : Nat) : VaultManager × Except CoreError Unit :=
  match updateSecrets id updated now m.data.secrets with
  | none => (m, .error (.NotFound id))
  | some secrets' =>
    VaultManager.save { m with data := { m.data with secrets := secrets' } }

/-- `VaultManager::delete`: `retain(|s| s.id != id)`, then `NotFound` if the
length did not change, else persist. -/
def VaultManager.delete (m : VaultManager) (id : Nat) :
    VaultManager × Except CoreError Unit :=
  let before := m.data.secrets.length
  let secrets' := m.data.secrets.filter (fun s => s.id != id)
  let m' : VaultManager := { m with data := { m.data with secrets := secrets' } }
  if secrets'.length = before then
    (m, .error (.NotFound id))
  else
    VaultManager.save m'

/-! ### TUI session state (`src/tui/app.rs`) -/

/-- Fields of a secret being added or edited (`SecretDraft`). -/
structure SecretDraft where
  name : String
  username : String
  password : String
  url : String
  tags : String
  notes : String
deriving DecidableEq, Repr

/-- `SecretDraft::empty()`. -/
def SecretDraft.empty : SecretDraft :=
  { name := "", username := "", password := "",
    url := "", tags := "", notes := "" }

/-- `SecretDraft::from_secret`. -/
def SecretDraft.from_secret (s : Secret) : SecretDraft :=
  { name := s.name, username := s.username.getD "",
    password := s.password, url := s.url.getD "",
    tags := String.intercalate ", " s.tags, notes := s.notes.getD "" }

/-- `SecretDraft::validate`. -/
def SecretDraft.validate (d : SecretDraft) : Option String :=
  if d.name.trim = "" then some "Name is required"
  else if d.password = "" then some "Password is required"
  else none

/-- `FormMode`. -/
inductive FormMode
  | add
  | edit (id : Nat)
deriving DecidableEq, Repr

/-- `AppView` (named `view` in `AppState`). -/
inductive AppView
  | locked (input : String) (error : Option String)
  | list (search_query : String) (selected_idx : Nat)
  | detail (secret_id : Nat) (show_password : Bool)
  | form (mode : FormMode) (draft : SecretDraft) (focused_field : Nat)
      (show_password : Bool) (error : Option String)
  | help
deriving DecidableEq, Repr

/-- `AppState` (minus `vault_path`, which only feeds the external store). -/
structure AppState where
  view : AppView
  vault : Option VaultManager
  clipboard_clear_at : Option Nat
  should_quit : Bool
  status : Option String
deriving DecidableEq, Repr

/-- `AppState::go_to_list`. -/
def go_to_list (app : AppState) : AppState :=
  { app with view := .list "" 0 }

/-! ### Input dispatch (`src/tui/events.rs`) -/

/-- The key codes the dispatcher inspects (`crossterm::event::KeyCode`). -/
inductive KeyCode
  | char (c : Char)
  | enter
  | esc
  | backspace
  | tab
  | backTab
  | up
  | down
  | left
  | right
deriving DecidableEq, Repr

/-- A key event (`KeyEvent`): code plus whether CONTROL is held. -/
structure KeyEvent where
  code : KeyCode
  ctrl : Bool
deriving DecidableEq, Repr

/-- Environment of one dispatched event: the current instant and the
outcomes of `arboard::Clipboard::new()` and `Clipboard::set_text`. -/
structure Env where
  now : Nat
  cbNew : Bool
  cbSet : Bool
deriving DecidableEq, Repr

def CLIPBOARD_TIMEOUT : Nat := 30

/-- `handle_list`: key dispatch in the List view. -/
def handle_list (matcher : String → String → Option Int) (app0 : AppState)
    (key : KeyEvent) : AppState :=
  let app := { app0 with status := none }
  match app.view with
  | AppView.list search_query selected_idx =>
    let count := match app.vault with
      | some v => (VaultManager.search matcher v search_query).length
      | none => 0
    let goDown : AppState :=
      if count > 0 then
        { app with view := .list search_query (min (selected_idx + 1) (count - 1)) }
      else app
    let goUp : AppState :=
      if selected_idx > 0 then
        { app with view := .list search_query (selected_idx - 1) }
      else app
    let goEnter : AppState :=
      if count > 0 then
        match app.vault with
        | some v =>
          match (VaultManager.search matcher v search_query).get?
              (min selected_idx (count - 1)) with
          | some s => { app with view := .detail s.id false }
          | none => app
        | none => app
      else app
    let goDelete : AppState :=
      if count > 0 then
        match app.vault with
        | some v =>
          match (VaultManager.search matcher v search_query).get?
              (min selected_idx (count - 1)) with
          | some s =>
            let v' := (VaultManager.delete v s.id).1
            let new_count := (VaultManager.list v').length
            { app with vault := some v',
                       view := .list search_query (min selected_idx (new_count - 1)),
                       status := some "Secret deleted." }
          | none => app
        | none => app
      else app
    match key.code with
    | .char c =>
      if c = 'q' then { app with should_quit := true }
      else if c = '?' then { app with view := .help }
      else if c = 'j' then goDown
      else if c = 'k' then goUp
      else if c = 'n' then
        { app with view := .form .add SecretDraft.empty 0 false none }
      else if c = 'd' then goDelete
      else { app with view := .list (search_query.push c) 0 }
    | .down => goDown
    | .up => goUp
    | .enter => goEnter
    | .right => goEnter
    | .backspace =>
      { app with view := .list (search_query.dropRight 1) 0 }
    | .esc =>
      if search_query ≠ "" then { app with view := .list "" selected_idx }
      else app
    | _ => app
  | _ => app

/-- `handle_detail`: key dispatch in the Detail view, returning the new
application state and the new clipboard content. -/
def handle_detail (env : Env) (app0 : AppState) (clip : String)
    (key : KeyEvent) : AppState × String :=
  let app := { app0 with status := none }
  match app.view with
  | AppView.detail secret_id show_password =>
    match key.code with
    | .esc => (go_to_list app, clip)
    | .left => (go_to_list app, clip)
    | .char c =>
      if c = '?' then ({ app with view := .help }, clip)
      else if c = ' ' then
        ({ app with view := .detail secret_id (!show_password) }, clip)
      else if c = 'c' then
        let password := match app.vault with
          | some v => (VaultManager.get v secret_id).map (fun s => s.password)
          | none => none
        match password with
        | some pwd =>
          if env.cbNew then
            if env.cbSet then
              ({ app with
                  clipboard_clear_at := some (env.now + CLIPBOARD_TIMEOUT),
                  status := some "Password copied — clears in 30s" }, pwd)
            else ({ app with status := some "Failed to copy to clipboard" }, clip)
          else ({ app with status := some "Clipboard not available" }, clip)
        | none => (app, clip)
      else if c = 'e' then
        let draft := match app.vault with
          | some v => (VaultManager.get v secret_id).map SecretDraft.from_secret
          | none => none
        match draft with
        | some d =>
          ({ app with view := .form (.edit secret_id) d 0 false none }, clip)
        | none => (app, clip)
      else if c = 'd' then
        match app.vault with
        | some v =>
          let res := VaultManager.delete v secret_id
          let app := { app with vault := some res.1 }
          match res.2 with
          | .ok _ => ({ go_to_list app with status := some "Secret deleted." }, clip)
          | .error _ => (app, clip)
        | none => (app, clip)
      else (app, clip)
    | _ => (app, clip)
  | _ => (app, clip)

/-! ### Session loop clipboard step (`src/tui/mod.rs`, `run_loop`) -/

/-- The clipboard auto-clear step run on every loop iteration after key
dispatch: once the deadline passes, drop the deadline, overwrite the OS
clipboard with the empty string (when the clipboard can be acquired and
written), and set the status message. -/
def clipboardAutoClear (env : Env) (app : AppState) (clip : String) :
    AppState × String :=
  match app.clipboard_clear_at with
  | some deadline =>
    if env.now ≥ deadline then
      let app' := { app with clipboard_clear_at := none }
      let clip' := if env.cbNew && env.cbSet then "" else clip
      ({ app' with status := some "Clipboard cleared." }, clip')
    else (app, clip)
  | none => (app, clip)

/-! ### Concrete instances used by witnesses and counterexamples -/

/-- A store whose decrypted payload carries `version = 2`. -/
def versionTwoFile : VaultFile :=
  { fileExists := true,
    loadResult := .ok { version := 2, secrets := [] },
    saveResult := none }

def exVaultData (l : List Secret) : VaultData :=
  { version := 1, secrets := l }

def exFile (l : List Secret) : VaultFile :=
  { fileExists := true, loadResult := .ok (exVaultData l), saveResult := none }

def exMgr (l : List Secret) : VaultManager :=
  { vault := exFile l, data := exVaultData l, stored := some (exVaultData l) }

def dupA : Secret := Secret.new 1 0 "GitHub" "a"

def dupB : Secret := Secret.new 1 5 "GitLab" "b"

def dupFresh : Secret := Secret.new 2 7 "AWS" "c"

/-! ### C3 -/

/-- C3 counterexample: a stored document with `version = 2 > 1` is opened
successfully — both `open` and `open_or_create` (the file exists) return a
manager over it instead of failing with a `Vault(...)` error: the core
performs no version check on load. -/
theorem open_accepts_version_two :
    1 < (2 : Nat) ∧
    VaultManager.openVault versionTwoFile
      = .ok { vault := versionTwoFile,
              data := { version := 2, secrets := [] },
              stored := some { version := 2, secrets := [] } } ∧
    VaultManager.open_or_create versionTwoFile
      = .ok { vault := versionTwoFile,
              data := { version := 2, secrets := [] },
              stored := some { version := 2, secrets := [] } } :=
  ⟨by decide, rfl, rfl⟩

/-- C3 (amended): on load the core performs no version check at all:
whenever the store decrypts and deserializes the document — whatever its
`version` field holds, in particular when it is greater than 1 —
`VaultManager::open` returns a manager over it, and `open_or_create`
behaves identically when the file exists. -/
theorem open_no_version_check (vf : VaultFile) (d : VaultData)
    (h : vf.loadResult = .ok d) :
    VaultManager.openVault vf
      = .ok { vault := vf, data := d, stored := some d } ∧
    (vf.fileExists = true →
      VaultManager.open_or_create vf
        = .ok { vault := vf, data := d, stored := some d }) := by
  have hopen : VaultManager.openVault vf
      = .ok { vault := vf, data := d, stored := some d } := by
    unfold VaultManager.openVault
    rw [h]
  refine ⟨hopen, fun hex => ?_⟩
  unfold VaultManager.open_or_create
  rw [hex, if_pos rfl]
  exact hopen

/-- C3 witness: the amended theorem applied to the concrete version-2 file. -/
theorem open_no_version_check_witness :
    VaultManager.openVault versionTwoFile
      = .ok { vault := versionTwoFile,
              data := { version := 2, secrets := [] },
              stored := some { version := 2, secrets := [] } } ∧
    (versionTwoFile.fileExists = true →
      VaultManager.open_or_create versionTwoFile
        = .ok { vault := versionTwoFile,
                data := { version := 2, secrets := [] },
                stored := some { version := 2, secrets := [] } }) :=
  open_no_version_check versionTwoFile { version := 2, secrets := [] } rfl

/-! ### C8 -/

/-- C8: on any loop iteration whose clipboard deadline is set and lies in
the past (and the OS clipboard can be acquired and written), the auto-clear
step empties the clipboard, drops the deadline, and sets the status to
"Clipboard cleared." — so an expired deadline never survives the
iteration. -/
theorem clipboard_autoclear_on_expired (env : Env) (app : AppState)
    (clip : String) (deadline : Nat)
    (hset : app.clipboard_clear_at = some deadline)
    (hpast : deadline < env.now)
    (hnew : env.cbNew = true) (hwr : env.cbSet = true) :
    clipboardAutoClear env app clip
      = ({ app with
           clipboard_clear_at := none,
           status := some "Clipboard cleared." }, "") := by
  unfold clipboardAutoClear
  rw [hset]
  simp [Nat.le_of_lt hpast, hnew, hwr]

def c8App : AppState :=
  { view := .detail 1 false, vault := none, clipboard_clear_at := some 5,
    should_quit := false, status := none }

def c8Env : Env := { now := 10, cbNew := true, cbSet := true }

/-- C8 witness: the auto-clear theorem at a concrete expired deadline. -/
theorem clipboard_autoclear_on_expired_witness :
    clipboardAutoClear c8Env c8App "s3cr3t"
      = ({ c8App with
           clipboard_clear_at := none,
           status := some "Clipboard cleared." }, "") :=
  clipboard_autoclear_on_expired c8Env c8App "s3cr3t" 5 rfl (by decide) rfl rfl

/-! ### C9 -/

/-- C9: pressing Esc or Left in the Detail view always goes back to the
List view with the search query reset to `""` and the selection reset to
`0` (via `go_to_list`); the previous query and selection are never
preserved. -/
theorem detail_esc_left_resets_list (env : Env) (app : AppState)
    (clip : String) (key : KeyEvent) (sid : Nat) (sp : Bool)
    (hview : app.view = .detail sid sp)
    (hkey : key.code = .esc ∨ key.code = .left) :
    handle_detail env app clip key
      = ({ app with status := none, view := .list "" 0 }, clip) := by
  obtain ⟨view, vault, cca, sq, st⟩ := app
  simp only at hview
  subst hview
  obtain ⟨code, ctrl⟩ := key
  simp only at hkey
  rcases hkey with h | h <;> subst h <;>
    simp [handle_detail, go_to_list]

def c9App : AppState :=
  { view := .detail 3 true, vault := none, clipboard_clear_at := none,
    should_quit := false, status := some "old" }

/-- C9 witness: Esc in a concrete Detail state lands in `List("", 0)`. -/
theorem detail_esc_left_resets_list_witness :
    handle_detail c8Env c9App "" { code := .esc, ctrl := false }
      = ({ c9App with status := none, view := .list "" 0 }, "") :=
  detail_esc_left_resets_list c8Env c9App "" { code := .esc, ctrl := false }
    3 true rfl (Or.inl rfl)

/-! ### C10 -/

def dupMgr : VaultManager := exMgr [dupA]

/-- C10: `add` appends unconditionally without checking id uniqueness: on
the concrete input `dupB`, whose id equals the id of `dupA` already in the
document, `add` succeeds and leaves two entries with id 1, breaking the
id-uniqueness invariant; and the invariant is preserved whenever the added
secret's id is fresh. -/
theorem add_unchecked_id_uniqueness :
    ((VaultManager.add dupMgr dupB).2 = Except.ok () ∧
     (VaultManager.add dupMgr dupB).1.data.secrets.map Secret.id = [1, 1] ∧
     ¬ ((VaultManager.add dupMgr dupB).1.data.secrets.map Secret.id).Nodup) ∧
    ∀ (m : VaultManager) (s : Secret),
      (∀ t ∈ m.data.secrets, t.id ≠ s.id) →
      (m.data.secrets.map Secret.id).Nodup →
      (VaultManager.add m s).1.data.secrets = m.data.secrets ++ [s] ∧
      ((VaultManager.add m s).1.data.secrets.map Secret.id).Nodup := by
  constructor
  · exact ⟨rfl, rfl, by decide⟩
  · intro m s hfresh hnodup
    have hsec : (VaultManager.add m s).1.data.secrets
        = m.data.secrets ++ [s] := by
      unfold VaultManager.add VaultManager.save
      cases m.vault.saveResult <;> rfl
    refine ⟨hsec, ?_⟩
    rw [hsec, List.map_append]
    refine List.Nodup.append hnodup (by simp) ?_
    intro a ha hb
    simp only [List.map_cons, List.map_nil, List.mem_singleton] at hb
    obtain ⟨t, ht, rfl⟩ := List.mem_map.mp ha
    exact hfresh t ht (hb)

/-- C10 witness: adding a fresh-id secret preserves id uniqueness. -/
theorem add_unchecked_id_uniqueness_witness :
    (VaultManager.add dupMgr dupFresh).1.data.secrets
      = dupMgr.data.secrets ++ [dupFresh] ∧
    ((VaultManager.add dupMgr dupFresh).1.data.secrets.map Secret.id).Nodup :=
  add_unchecked_id_uniqueness.2 dupMgr dupFresh (by decide) (by decide)

/-! ### Generator lemmas, C4 and C5 -/

/-- "At least one character class enabled", as a Boolean. -/
def anyClassEnabled (cfg : GeneratorConfig) : Bool :=
  cfg.uppercase || cfg.lowercase || cfg.digits || cfg.symbols

theorem data_if_string (b : Bool) (s : String) :
    (if b then s else "").data = if b then s.data else [] := by
  cases b <;> rfl

theorem effectiveCharset_data (cfg : GeneratorConfig) :
    (effectiveCharset cfg).data
      = (if cfg.uppercase then UPPERCASE.data else [])
        ++ (if cfg.lowercase then LOWERCASE.data else [])
        ++ (if cfg.digits then DIGITS.data else [])
        ++ (if cfg.symbols then SYMBOLS.data else []) := by
  unfold effectiveCharset
  rw [String.data_append, String.data_append, String.data_append,
    data_if_string, data_if_string, data_if_string, data_if_string]

theorem effectiveCharset_eq_empty_iff (cfg : GeneratorConfig) :
    effectiveCharset cfg = "" ↔ anyClassEnabled cfg = false := by
  constructor
  · intro h
    have h' : (effectiveCharset cfg).data = [] := by rw [h]
    rw [effectiveCharset_data, List.append_eq_nil, List.append_eq_nil,
      List.append_eq_nil] at h'
    obtain ⟨⟨⟨hu', hl'⟩, hd'⟩, hs'⟩ := h'
    have hu : cfg.uppercase = false := by
      cases hb : cfg.uppercase
      · rfl
      · rw [hb, if_pos rfl] at hu'
        exact absurd hu' (by decide)
    have hl : cfg.lowercase = false := by
      cases hb : cfg.lowercase
      · rfl
      · rw [hb, if_pos rfl] at hl'
        exact absurd hl' (by decide)
    have hd : cfg.digits = false := by
      cases hb : cfg.digits
      · rfl
      · rw [hb, if_pos rfl] at hd'
        exact absurd hd' (by decide)
    have hs : cfg.symbols = false := by
      cases hb : cfg.symbols
      · rfl
      · rw [hb, if_pos rfl] at hs'
        exact absurd hs' (by decide)
    simp [anyClassEnabled, hu, hl, hd, hs]
  · intro h
    rw [anyClassEnabled, Bool.or_eq_false_iff, Bool.or_eq_false_iff,
      Bool.or_eq_false_iff] at h
    obtain ⟨⟨⟨hu, hl⟩, hd⟩, hs⟩ := h
    apply String.ext
    rw [effectiveCharset_data, hu, hl, hd, hs]
    rfl

theorem mem_if_string (b : Bool) (s : String) (c : Char)
    (h : c ∈ (if b then s else "").data) : b = true ∧ c ∈ s.data := by
  cases hb : b
  · rw [hb] at h
    rw [if_neg (by decide)] at h
    exact absurd h (List.not_mem_nil c)
  · rw [hb] at h
    rw [if_pos rfl] at h
    exact ⟨rfl, h⟩

theorem mem_effectiveCharset (cfg : GeneratorConfig) (c : Char)
    (hc : c ∈ (effectiveCharset cfg).data) :
    (cfg.uppercase = true ∧ c ∈ UPPERCASE.data) ∨
    (cfg.lowercase = true ∧ c ∈ LOWERCASE.data) ∨
    (cfg.digits = true ∧ c ∈ DIGITS.data) ∨
    (cfg.symbols = true ∧ c ∈ SYMBOLS.data) := by
  unfold effectiveCharset at hc
  rw [String.data_append, String.data_append, String.data_append] at hc
  rcases List.mem_append.mp hc with h3 | h
  · rcases List.mem_append.mp h3 with h2 | h
    · rcases List.mem_append.mp h2 with h | h
      · exact Or.inl (mem_if_string _ _ _ h)
      · exact Or.inr (Or.inl (mem_if_string _ _ _ h))
    · exact Or.inr (Or.inr (Or.inl (mem_if_string _ _ _ h)))
  · exact Or.inr (Or.inr (Or.inr (mem_if_string _ _ _ h)))

/-- Unfolding equation for `generate` with the let-bindings resolved. -/
theorem generate_eq (cfg : GeneratorConfig) (rand : Nat → Nat) :
    generate cfg rand =
      if cfg.length = 0 then .error .InvalidLength
      else if effectiveCharset cfg = "" then .error .EmptyCharset
      else .ok (String.mk ((List.range cfg.length).map
        (fun i => (effectiveCharset cfg).data.getD
          (rand i % (effectiveCharset cfg).data.length) 'A'))) := rfl

/-! ### C5 -/

/-- C5: `generate` fails with `InvalidLength` exactly when `length = 0`,
fails with `EmptyCharset` exactly when `length ≥ 1` and no character class
is enabled, and succeeds in exactly the remaining case (`length ≥ 1` and at
least one class enabled) — so it returns an error in no other case. -/
theorem generate_error_spec (cfg : GeneratorConfig) (rand : Nat → Nat) :
    (generate cfg rand = .error .InvalidLength ↔ cfg.length = 0) ∧
    (generate cfg rand = .error .EmptyCharset ↔
      1 ≤ cfg.length ∧ anyClassEnabled cfg = false) ∧
    ((generate cfg rand).isOk = true ↔
      1 ≤ cfg.length ∧ anyClassEnabled cfg = true) := by
  rw [generate_eq]
  by_cases h0 : cfg.length = 0
  · rw [if_pos h0]
    exact ⟨⟨fun _ => h0, fun _ => rfl⟩,
           ⟨fun h => absurd h (by decide), fun h => absurd h.1 (by omega)⟩,
           ⟨fun h => absurd h (by decide), fun h => absurd h.1 (by omega)⟩⟩
  · rw [if_neg h0]
    have h1 : 1 ≤ cfg.length := Nat.one_le_iff_ne_zero.mpr h0
    by_cases hcs : effectiveCharset cfg = ""
    · rw [if_pos hcs]
      have hf : anyClassEnabled cfg = false :=
        (effectiveCharset_eq_empty_iff cfg).mp hcs
      exact ⟨⟨fun h => absurd h (by decide), fun hl => absurd hl h0⟩,
             ⟨fun _ => ⟨h1, hf⟩, fun _ => rfl⟩,
             ⟨fun h => absurd h (by decide), fun h => by simp [hf] at h⟩⟩
    · rw [if_neg hcs]
      have ht : anyClassEnabled cfg = true := by
        cases h : anyClassEnabled cfg
        · exact absurd ((effectiveCharset_eq_empty_iff cfg).mpr h) hcs
        · rfl
      exact ⟨⟨fun h => by simp at h, fun hl => absurd hl h0⟩,
             ⟨fun h => by simp at h, fun h => absurd h.2 (by simp [ht])⟩,
             ⟨fun _ => ⟨h1, ht⟩, fun _ => rfl⟩⟩

def cfgDigitsOnly : GeneratorConfig :=
  { length := 3, uppercase := false, lowercase := false,
    digits := true, symbols := false }

def cfgZeroLen : GeneratorConfig :=
  { length := 0, uppercase := true, lowercase := true,
    digits := true, symbols := true }

def cfgNoClass : GeneratorConfig :=
  { length := 5, uppercase := false, lowercase := false,
    digits := false, symbols := false }

def idRand : Nat → Nat := fun i => i

/-- C5 witness: the three cases of the error specification at concrete
configurations. -/
theorem generate_error_spec_witness :
    generate cfgZeroLen idRand = .error .InvalidLength ∧
    generate cfgNoClass idRand = .error .EmptyCharset ∧
    (generate cfgDigitsOnly idRand).isOk = true :=
  ⟨(generate_error_spec cfgZeroLen idRand).1.mpr rfl,
   (generate_error_spec cfgNoClass idRand).2.1.mpr (by decide),
   (generate_error_spec cfgDigitsOnly idRand).2.2.mpr (by decide)⟩

/-! ### C4 -/

/-- C4: with `length ≥ 1` and at least one class enabled, `generate`
returns `Ok` with a string of exactly `length` characters, each drawn from
the effective charset (the enabled classes concatenated in the fixed order)
and hence lying in the union of the enabled class alphabets. -/
theorem generate_length_and_charset (cfg : GeneratorConfig)
    (rand : Nat → Nat) (hlen : 1 ≤ cfg.length)
    (hcls : cfg.uppercase = true ∨ cfg.lowercase = true ∨
            cfg.digits = true ∨ cfg.symbols = true) :
    ∃ s : String, generate cfg rand = .ok s ∧ s.length = cfg.length ∧
      ∀ c ∈ s.data, c ∈ (effectiveCharset cfg).data ∧
        ((cfg.uppercase = true ∧ c ∈ UPPERCASE.data) ∨
         (cfg.lowercase = true ∧ c ∈ LOWERCASE.data) ∨
         (cfg.digits = true ∧ c ∈ DIGITS.data) ∨
         (cfg.symbols = true ∧ c ∈ SYMBOLS.data)) := by
  have h0 : ¬ cfg.length = 0 := by omega
  have hany : anyClassEnabled cfg = true := by
    rcases hcls with h | h | h | h <;> simp [anyClassEnabled, h]
  have hcs : ¬ effectiveCharset cfg = "" := by
    intro he
    rw [(effectiveCharset_eq_empty_iff cfg).mp he] at hany
    exact absurd hany (by decide)
  have hnil : (effectiveCharset cfg).data ≠ [] := by
    intro hq
    exact hcs (String.ext (hq.trans rfl))
  have hpos : 0 < (effectiveCharset cfg).data.length :=
    List.length_pos.mpr hnil
  have hg : generate cfg rand = .ok (String.mk ((List.range cfg.length).map
      (fun i => (effectiveCharset cfg).data.getD
        (rand i % (effectiveCharset cfg).data.length) 'A'))) := by
    rw [generate_eq, if_neg h0, if_neg hcs]
  refine ⟨_, hg, ?_, ?_⟩
  · show (String.mk _).length = cfg.length
    rw [String.length_mk, List.length_map, List.length_range]
  · intro c hc
    have hc' : c ∈ (List.range cfg.length).map
        (fun i => (effectiveCharset cfg).data.getD
          (rand i % (effectiveCharset cfg).data.length) 'A') := hc
    obtain ⟨i, _, rfl⟩ := List.mem_map.mp hc'
    have hidx : rand i % (effectiveCharset cfg).data.length
        < (effectiveCharset cfg).data.length := Nat.mod_lt _ hpos
    have hmem : (effectiveCharset cfg).data.getD
        (rand i % (effectiveCharset cfg).data.length) 'A'
        ∈ (effectiveCharset cfg).data := by
      rw [List.getD_eq_getElem _ _ hidx]
      exact List.getElem_mem hidx
    exact ⟨hmem, mem_effectiveCharset cfg _ hmem⟩

/-- C4 witness: the theorem at the concrete digits-only configuration. -/
theorem generate_length_and_charset_witness :
    ∃ s : String, generate cfgDigitsOnly idRand = .ok s ∧
      s.length = cfgDigitsOnly.length ∧
      ∀ c ∈ s.data, c ∈ (effectiveCharset cfgDigitsOnly).data ∧
        ((cfgDigitsOnly.uppercase = true ∧ c ∈ UPPERCASE.data) ∨
         (cfgDigitsOnly.lowercase = true ∧ c ∈ LOWERCASE.data) ∨
         (cfgDigitsOnly.digits = true ∧ c ∈ DIGITS.data) ∨
         (cfgDigitsOnly.symbols = true ∧ c ∈ SYMBOLS.data)) :=
  generate_length_and_charset cfgDigitsOnly idRand (by decide)
    (Or.inr (Or.inr (Or.inl rfl)))

/-! ### Update/delete lemmas, C1 and C6 -/

/-- The entry actually stored by `update`: the caller's secret with `id`
and `created_at` forced from the existing entry and `updated_at := now`. -/
def forcedSecret (u : Secret) (id created now : Nat) : Secret :=
  { u with id := id, created_at := created, updated_at := now }

theorem updateSecrets_replace (id : Nat) (u : Secret) (now : Nat)
    (pre post : List Secret) (old : Secret)
    (hpre : ∀ s ∈ pre, s.id ≠ id) (hold : old.id = id) :
    updateSecrets id u now (pre ++ old :: post)
      = some (pre ++ (forcedSecret u id old.created_at now) :: post) := by
  induction pre with
  | nil =>
    simp only [List.nil_append, updateSecrets]
    rw [if_pos hold]
    rfl
  | cons s rest ih =>
    simp only [List.cons_append, updateSecrets]
    rw [if_neg (hpre s (List.mem_cons_self s rest))]
    simp only [List.append_eq]
    rw [ih (fun t ht => hpre t (List.mem_cons_of_mem s ht))]
    rfl

theorem updateSecrets_none (id : Nat) (u : Secret) (now : Nat)
    (l : List Secret) (h : ∀ s ∈ l, s.id ≠ id) :
    updateSecrets id u now l = none := by
  induction l with
  | nil => rfl
  | cons s rest ih =>
    simp only [updateSecrets]
    rw [if_neg (h s (List.mem_cons_self s rest)),
      ih (fun t ht => h t (List.mem_cons_of_mem s ht))]
    rfl

theorem find_replaced (pre post : List Secret) (e : Secret) (id : Nat)
    (hpre : ∀ s ∈ pre, s.id ≠ id) (he : e.id = id) :
    (pre ++ e :: post).find? (fun s => s.id == id) = some e := by
  induction pre with
  | nil =>
    simp only [List.nil_append, List.find?_cons]
    rw [show (e.id == id) = true from beq_iff_eq.mpr he]
  | cons s rest ih =>
    simp only [List.cons_append, List.find?_cons]
    rw [show (s.id == id) = false from
      beq_eq_false_iff_ne.mpr (hpre s (List.mem_cons_self s rest))]
    exact ih (fun t ht => hpre t (List.mem_cons_of_mem s ht))

/-- Unfolding equation for `delete` with the let-bindings resolved. -/
theorem delete_eq (m : VaultManager) (id : Nat) :
    VaultManager.delete m id =
      if (m.data.secrets.filter (fun s => s.id != id)).length
          = m.data.secrets.length then
        (m, .error (.NotFound id))
      else
        VaultManager.save { m with data := { m.data with
          secrets := m.data.secrets.filter (fun s => s.id != id) } } := rfl

/-! ### C1 -/

/-- C1: a successful `update(id, new)` on a document whose entry for `id`
is `old` changes exactly that entry; the stored entry keeps the original
`id` (the `id` field of `new` is ignored) and the original `created_at`,
takes every other field from `new`, and gets `updated_at = now`, strictly
greater than `old.updated_at`. -/
theorem update_preserves_identity
    (m : VaultManager) (id : Nat) (new : Secret) (now : Nat)
    (pre post : List Secret) (old : Secret)
    (hsecrets : m.data.secrets = pre ++ old :: post)
    (hpre : ∀ s ∈ pre, s.id ≠ id)
    (hold : old.id = id)
    (hsave : m.vault.saveResult = none)
    (hnow : old.updated_at < now) :
    (VaultManager.update m id new now).2 = .ok () ∧
    (VaultManager.update m id new now).1.data.secrets
      = pre ++ (forcedSecret new id old.created_at now) :: post ∧
    VaultManager.get (VaultManager.update m id new now).1 id
      = some (forcedSecret new id old.created_at now) ∧
    (forcedSecret new id old.created_at now).id = id ∧
    (forcedSecret new id old.created_at now).created_at = old.created_at ∧
    (forcedSecret new id old.created_at now).name = new.name ∧
    (forcedSecret new id old.created_at now).password = new.password ∧
    (forcedSecret new id old.created_at now).username = new.username ∧
    (forcedSecret new id old.created_at now).url = new.url ∧
    (forcedSecret new id old.created_at now).notes = new.notes ∧
    (forcedSecret new id old.created_at now).tags = new.tags ∧
    (forcedSecret new id old.created_at now).updated_at = now ∧
    old.updated_at < (forcedSecret new id old.created_at now).updated_at := by
  obtain ⟨vault, data, stored⟩ := m
  obtain ⟨ver, secrets⟩ := data
  simp only at hsecrets hsave
  subst hsecrets
  have hup := updateSecrets_replace id new now pre post old hpre hold
  unfold VaultManager.update
  simp only
  rw [hup]
  unfold VaultManager.save
  simp only
  rw [hsave]
  refine ⟨rfl, rfl, ?_, rfl, rfl, rfl, rfl, rfl, rfl, rfl, rfl, rfl, hnow⟩
  unfold VaultManager.get
  simp only
  exact find_replaced pre post _ id hpre rfl

def c1Old : Secret :=
  { id := 9, name := "GitHub", username := none, password := "old",
    url := none, notes := none, tags := [], created_at := 2,
    updated_at := 3 }

def c1New : Secret :=
  { id := 77, name := "GitHub perso", username := some "u",
    password := "new_password", url := some "https://g", notes := none,
    tags := ["dev"], created_at := 100, updated_at := 100 }

def c1Mgr : VaultManager := exMgr [c1Old]

/-- C1 witness: the update theorem at a concrete one-entry vault. -/
theorem update_preserves_identity_witness :
    (VaultManager.update c1Mgr 9 c1New 5).2 = .ok () ∧
    (VaultManager.update c1Mgr 9 c1New 5).1.data.secrets
      = [] ++ (forcedSecret c1New 9 c1Old.created_at 5) :: [] ∧
    VaultManager.get (VaultManager.update c1Mgr 9 c1New 5).1 9
      = some (forcedSecret c1New 9 c1Old.created_at 5) ∧
    (forcedSecret c1New 9 c1Old.created_at 5).id = 9 ∧
    (forcedSecret c1New 9 c1Old.created_at 5).created_at = c1Old.created_at ∧
    (forcedSecret c1New 9 c1Old.created_at 5).name = c1New.name ∧
    (forcedSecret c1New 9 c1Old.created_at 5).password = c1New.password ∧
    (forcedSecret c1New 9 c1Old.created_at 5).username = c1New.username ∧
    (forcedSecret c1New 9 c1Old.created_at 5).url = c1New.url ∧
    (forcedSecret c1New 9 c1Old.created_at 5).notes = c1New.notes ∧
    (forcedSecret c1New 9 c1Old.created_at 5).tags = c1New.tags ∧
    (forcedSecret c1New 9 c1Old.created_at 5).updated_at = 5 ∧
    c1Old.updated_at < (forcedSecret c1New 9 c1Old.created_at 5).updated_at :=
  update_preserves_identity c1Mgr 9 c1New 5 [] [] c1Old rfl
    (by intro s hs; exact absurd hs (List.not_mem_nil s)) rfl rfl (by decide)

/-! ### C6 -/

/-- C6: when no secret carries the target id, both `update` and `delete`
fail with `NotFound(id)` and return the manager completely unchanged — the
in-memory document is untouched and nothing is persisted. -/
theorem missing_id_not_found (m : VaultManager) (id : Nat) (new : Secret)
    (now : Nat) (habsent : ∀ s ∈ m.data.secrets, s.id ≠ id) :
    VaultManager.update m id new now = (m, .error (.NotFound id)) ∧
    VaultManager.delete m id = (m, .error (.NotFound id)) := by
  constructor
  · unfold VaultManager.update
    rw [updateSecrets_none id new now m.data.secrets habsent]
  · rw [delete_eq]
    rw [List.filter_eq_self.mpr
      (fun s hs => bne_iff_ne.mpr (habsent s hs))]
    rw [if_pos rfl]

/-- C6 witness: update and delete of an absent id on a concrete vault. -/
theorem missing_id_not_found_witness :
    VaultManager.update c1Mgr 4 c1New 5 = (c1Mgr, .error (.NotFound 4)) ∧
    VaultManager.delete c1Mgr 4 = (c1Mgr, .error (.NotFound 4)) :=
  missing_id_not_found c1Mgr 4 c1New 5 (by decide)

/-! ### Search lemmas and C2 -/

/-- The score `search` effectively assigns to a matching secret. -/
def scoreOf (matcher : String → String → Option Int) (q : String)
    (s : Secret) : Int :=
  (match_score matcher s q).getD 0

theorem filterMap_score_map_snd (matcher : String → String → Option Int)
    (q : String) (l : List Secret) :
    (l.filterMap
        (fun s => (match_score matcher s q).map (fun sc => (sc, s)))).map
      (fun p => p.2)
      = l.filter (fun s => (match_score matcher s q).isSome) := by
  induction l with
  | nil => rfl
  | cons s rest ih =>
    cases hms : match_score matcher s q with
    | none => simp [List.filterMap_cons, List.filter_cons, hms, ih]
    | some sc => simp [List.filterMap_cons, List.filter_cons, hms, ih]

theorem score_of_mem_scored (matcher : String → String → Option Int)
    (q : String) (l : List Secret) (p : Int × Secret)
    (hp : p ∈ l.filterMap
      (fun s => (match_score matcher s q).map (fun sc => (sc, s)))) :
    match_score matcher p.2 q = some p.1 := by
  obtain ⟨t, _, hmap⟩ := List.mem_filterMap.mp hp
  cases hms : match_score matcher t q with
  | none =>
    rw [hms] at hmap
    exact absurd hmap (by simp)
  | some sc =>
    rw [hms, Option.map_some'] at hmap
    cases Option.some.inj hmap
    simpa using hms

/-- C2: `search("")` returns every secret in insertion order; for a
non-empty query, `search(q)` returns exactly the secrets whose
`match_score` is defined (as a multiset), ordered by non-increasing
score — ties in unspecified order. -/
theorem search_spec (matcher : String → String → Option Int)
    (m : VaultManager) :
    VaultManager.search matcher m "" = m.data.secrets ∧
    ∀ q : String, q ≠ "" →
      (VaultManager.search matcher m q).Perm
        (m.data.secrets.filter (fun s => (match_score matcher s q).isSome)) ∧
      List.Pairwise (fun a b => scoreOf matcher q b ≤ scoreOf matcher q a)
        (VaultManager.search matcher m q) := by
  constructor
  · unfold VaultManager.search
    rw [if_pos rfl]
  · intro q hq
    unfold VaultManager.search
    rw [if_neg hq]
    simp only
    constructor
    · have hperm := List.Perm.map (fun p : Int × Secret => p.2)
        (List.perm_insertionSort (fun (a b : Int × Secret) => b.1 ≤ a.1)
          (m.data.secrets.filterMap
            (fun s => (match_score matcher s q).map (fun sc => (sc, s)))))
      rw [filterMap_score_map_snd] at hperm
      exact hperm
    · haveI : IsTotal (Int × Secret) (fun a b => b.1 ≤ a.1) :=
        ⟨fun a b => le_total b.1 a.1⟩
      haveI : IsTrans (Int × Secret) (fun a b => b.1 ≤ a.1) :=
        ⟨fun _ _ _ hab hbc => le_trans hbc hab⟩
      have hsorted := List.sorted_insertionSort
        (fun (a b : Int × Secret) => b.1 ≤ a.1)
        (m.data.secrets.filterMap
          (fun s => (match_score matcher s q).map (fun sc => (sc, s))))
      rw [List.pairwise_map]
      refine hsorted.imp_of_mem ?_
      intro a b ha hb hr
      have ha' := score_of_mem_scored matcher q m.data.secrets a
        ((List.perm_insertionSort _ _).mem_iff.mp ha)
      have hb' := score_of_mem_scored matcher q m.data.secrets b
        ((List.perm_insertionSort _ _).mem_iff.mp hb)
      unfold scoreOf
      rw [ha', hb']
      exact hr

def eqMatcher : String → String → Option Int :=
  fun t q => if t = q then some (Int.ofNat t.length) else none

def sA : Secret := Secret.new 1 0 "ab" "p1"

def sB : Secret := Secret.new 2 0 "cd" "p2"

def searchMgr : VaultManager := exMgr [sA, sB]

/-- C2 witness: the search specification at a concrete two-entry vault and
matcher. -/
theorem search_spec_witness :
    VaultManager.search eqMatcher searchMgr "" = searchMgr.data.secrets ∧
    (VaultManager.search eqMatcher searchMgr "ab").Perm
      (searchMgr.data.secrets.filter
        (fun s => (match_score eqMatcher s "ab").isSome)) ∧
    List.Pairwise
      (fun a b => scoreOf eqMatcher "ab" b ≤ scoreOf eqMatcher "ab" a)
      (VaultManager.search eqMatcher searchMgr "ab") :=
  ⟨(search_spec eqMatcher searchMgr).1,
   ((search_spec eqMatcher searchMgr).2 "ab" (by decide)).1,
   ((search_spec eqMatcher searchMgr).2 "ab" (by decide)).2⟩

/-! ### List-view delete lemmas and C7 -/

theorem mem_of_mem_search (matcher : String → String → Option Int)
    (m : VaultManager) (q : String) (s : Secret)
    (hs : s ∈ VaultManager.search matcher m q) : s ∈ m.data.secrets := by
  unfold VaultManager.search at hs
  by_cases hq : q = ""
  · rw [if_pos hq] at hs
    exact hs
  · rw [if_neg hq] at hs
    simp only at hs
    obtain ⟨p, hp, hps⟩ := List.mem_map.mp hs
    have hp' := (List.perm_insertionSort _ _).mem_iff.mp hp
    obtain ⟨t, ht, hmap⟩ := List.mem_filterMap.mp hp'
    cases hms : match_score matcher t q with
    | none =>
      rw [hms] at hmap
      exact absurd hmap (by simp)
    | some sc =>
      rw [hms, Option.map_some'] at hmap
      cases Option.some.inj hmap
      subst hps
      exact ht

theorem delete_mem_nodup (m : VaultManager) (t : Secret)
    (l1 l2 : List Secret)
    (hsec : m.data.secrets = l1 ++ t :: l2)
    (hnodup : (m.data.secrets.map Secret.id).Nodup) :
    (VaultManager.delete m t.id).1.data.secrets = l1 ++ l2 := by
  have hids : ((l1.map Secret.id) ++ t.id :: (l2.map Secret.id)).Nodup := by
    rw [hsec] at hnodup
    simpa [List.map_append] using hnodup
  have hdisj := List.disjoint_of_nodup_append hids
  have h1 : ∀ s ∈ l1, s.id ≠ t.id := by
    intro s hs heq
    exact hdisj (List.mem_map_of_mem Secret.id hs)
      (by rw [heq]; exact List.mem_cons_self _ _)
  have hr := List.Nodup.of_append_right hids
  have h2 : ∀ s ∈ l2, s.id ≠ t.id := by
    intro s hs heq
    exact (List.nodup_cons.mp hr).1
      (by rw [← heq]; exact List.mem_map_of_mem Secret.id hs)
  have e1 : l1.filter (fun s => s.id != t.id) = l1 :=
    List.filter_eq_self.mpr (fun a ha => bne_iff_ne.mpr (h1 a ha))
  have e2 : l2.filter (fun s => s.id != t.id) = l2 :=
    List.filter_eq_self.mpr (fun a ha => bne_iff_ne.mpr (h2 a ha))
  have hfl : (l1 ++ t :: l2).filter (fun s => s.id != t.id) = l1 ++ l2 := by
    rw [List.filter_append, List.filter_cons]
    simp [e1, e2]
  have hlen : ¬ ((l1 ++ l2).length = (l1 ++ t :: l2).length) := by
    simp only [List.length_append, List.length_cons]
    omega
  rw [delete_eq, hsec, hfl, if_neg hlen]
  unfold VaultManager.save
  cases hsr : m.vault.saveResult <;> simp [hsr]

/-- C7: in the List view with a non-empty filtered result, pressing `d`
deletes exactly the secret at the currently selected index of the filtered
(search-query) result from the document, re-clamps `selected_idx` to the
new (full) list length, and sets the status to "Secret deleted." — for
every search query and selection, also when the filtered count differs
from the total count. -/
theorem list_delete_selected (matcher : String → String → Option Int)
    (app : AppState) (v : VaultManager) (key : KeyEvent)
    (q : String) (sel : Nat)
    (hview : app.view = .list q sel)
    (hvault : app.vault = some v)
    (hkey : key.code = .char 'd')
    (hnodup : (v.data.secrets.map Secret.id).Nodup)
    (hsel : sel < (VaultManager.search matcher v q).length) :
    ∃ target l1 l2,
      (VaultManager.search matcher v q).get? sel = some target ∧
      v.data.secrets = l1 ++ target :: l2 ∧
      (handle_list matcher app key).vault
        = some ((VaultManager.delete v target.id).1) ∧
      (VaultManager.delete v target.id).1.data.secrets = l1 ++ l2 ∧
      (handle_list matcher app key).view
        = .list q (min sel ((l1 ++ l2).length - 1)) ∧
      (handle_list matcher app key).status = some "Secret deleted." := by
  obtain ⟨view, vault, cca, sq, st⟩ := app
  simp only at hview hvault
  subst hview
  subst hvault
  obtain ⟨code, ctrl⟩ := key
  simp only at hkey
  subst hkey
  have hget : (VaultManager.search matcher v q).get? sel
      = some ((VaultManager.search matcher v q).get ⟨sel, hsel⟩) :=
    List.get?_eq_get hsel
  obtain ⟨l1, l2, hsec⟩ := List.append_of_mem
    (mem_of_mem_search matcher v q _ (List.get?_mem hget))
  have hdel := delete_mem_nodup v _ l1 l2 hsec hnodup
  have hcount : 0 < (VaultManager.search matcher v q).length := by omega
  have hmin : min sel ((VaultManager.search matcher v q).length - 1) = sel :=
    Nat.min_eq_left (by omega)
  have hres : handle_list matcher
      { view := AppView.list q sel, vault := some v,
        clipboard_clear_at := cca, should_quit := sq, status := st }
      { code := KeyCode.char 'd', ctrl := ctrl }
      = { view := AppView.list q (min sel
            (((VaultManager.delete v ((VaultManager.search matcher v
              q).get ⟨sel, hsel⟩).id).1.data.secrets).length - 1)),
          vault := some ((VaultManager.delete v ((VaultManager.search
            matcher v q).get ⟨sel, hsel⟩).id).1),
          clipboard_clear_at := cca, should_quit := sq,
          status := some "Secret deleted." } := by
    unfold handle_list
    simp only
    rw [if_neg (by decide), if_neg (by decide), if_neg (by decide),
      if_neg (by decide), if_neg (by decide), if_pos trivial]
    rw [if_pos hcount, hmin, hget]
    rfl
  refine ⟨_, l1, l2, hget, hsec, ?_, hdel, ?_, ?_⟩
  · rw [hres]
  · rw [hres, hdel]
  · rw [hres]

def c7App : AppState :=
  { view := .list "ab" 0, vault := some searchMgr,
    clipboard_clear_at := none, should_quit := false, status := none }

def c7Key : KeyEvent := { code := .char 'd', ctrl := false }

/-- C7 witness: the delete-selected theorem at a concrete filtered List
state (query "ab" matches one of the two stored secrets). -/
theorem list_delete_selected_witness :
    ∃ target l1 l2,
      (VaultManager.search eqMatcher searchMgr "ab").get? 0 = some target ∧
      searchMgr.data.secrets = l1 ++ target :: l2 ∧
      (handle_list eqMatcher c7App c7Key).vault
        = some ((VaultManager.delete searchMgr target.id).1) ∧
      (VaultManager.delete searchMgr target.id).1.data.secrets = l1 ++ l2 ∧
      (handle_list eqMatcher c7App c7Key).view
        = .list "ab" (min 0 ((l1 ++ l2).length - 1)) ∧
      (handle_list eqMatcher c7App c7Key).status
        = some "Secret deleted." :=
  list_delete_selected eqMatcher c7App searchMgr c7Key "ab" 0 rfl rfl rfl
    (by decide) (by decide)

end Sigil
